import Mathlib

/-!
# Typed value I/O of `vcf.h`

A shallow embedding of the inline functions and macros of `src/vcf.h`
(`vcf_enc_size`, `vcf_enc_inttype`, `vcf_enc_int1`, `vcf_dec_int1`,
`vcf_dec_size`, `vcf_hdr_n_val`, `kroundup32`) and the properties of the
typed-value wire codec, the key cardinality and the capacity rounding that
follow from them.

Conventions of the embedding:

* a byte buffer (`kstring_t` contents, `const uint8_t *buf`) is a `List Nat`
  whose entries are byte values `0..255`; a pointer `buf + k` is `buf.drop k`;
* C `int`, `long`, `int32_t`, `int64_t` values are `Int`; the conversion of an
  `int` to a stored `char` keeps the low eight bits (`% 256`);
* `assert` aborts the program: an encoder run ends in `Enc.aborted` carrying the
  buffer as it was when the assertion failed, a decoder run in
  `Dec.fail Fault.assertion`;
* reading a byte that the buffer does not hold is `Dec.fail Fault.outOfBounds`;
* multi-byte objects are laid out little-endian, two's complement.
-/

namespace Vcf

/-! ## Constants of `<stdint.h>` and `vcf.h` -/

def INT8_MAX : Int := 127
def INT8_MIN : Int := -128
def INT16_MAX : Int := 32767
def INT16_MIN : Int := -32768
def INT32_MAX : Int := 2147483647
def INT32_MIN : Int := -2147483648

def VCF_VTP_FIXED : Nat := 0
def VCF_VTP_VAR : Nat := 1
def VCF_VTP_A : Nat := 2
def VCF_VTP_G : Nat := 3

def VCF_RT_INT8 : Nat := 1
def VCF_RT_INT16 : Nat := 2
def VCF_RT_INT32 : Nat := 3
def VCF_RT_INT64 : Nat := 4
def VCF_RT_FLOAT : Nat := 5
def VCF_RT_BOOL : Nat := 8
def VCF_RT_CSTR : Nat := 9
def VCF_RT_UINT8 : Nat := 13

/-! ## Buffers and outcomes -/

/-- The bytes `s[0..l)` held by a `kstring_t`. -/
abbrev kstring_t := List Nat

/-- The two ways a run stops without a value. -/
inductive Fault where
  | assertion
  | outOfBounds
  deriving DecidableEq, Repr

/-- Outcome of an encoder (`void` function writing to a `kstring_t`): the
buffer after a normal return, or the buffer at the moment an `assert`
aborted the run. -/
inductive Enc where
  | done (s : kstring_t)
  | aborted (s : kstring_t)
  deriving DecidableEq, Repr

/-- Outcome of a decoder: the returned value, or the fault that stopped it. -/
inductive Dec (α : Type) where
  | ok (v : α)
  | fail (f : Fault)
  deriving DecidableEq, Repr

/-- Modelled from the spec: `kputc` of `kstring.h`, which is not under `src/`.
It appends the one byte `(char)c` to the buffer, growing it as needed. -/
def kputc (c : Int) (s : kstring_t) : kstring_t :=
  s ++ [(c % 256).toNat]

/-- Modelled from the spec: `kputsn` of `kstring.h`, which is not under `src/`.
It appends the first `l` bytes found at `p` to the buffer. -/
def kputsn (p : List Nat) (l : Nat) (s : kstring_t) : kstring_t :=
  s ++ p.take l

/-- The object representation `(char*)&z` of a `w`-byte two's-complement
integer `z`, least significant byte first. -/
def object_bytes : Nat → Int → List Nat
  | 0, _ => []
  | w + 1, z => (z % 256).toNat :: object_bytes w (z / 256)

/-- The value of a `w`-bit two's-complement object whose unsigned reading
is `u`. -/
def as_signed (w : Nat) (u : Nat) : Int :=
  if u < 2 ^ (w - 1) then (u : Int) else (u : Int) - 2 ^ w

/-- Modelled from the spec: the table `vcf_type_size`, declared `extern` in
`vcf.h` and defined outside `src/`, with the widths the spec lists (flag 0,
int8 1, int16 2, int32 4, int64 8, float 4, bool 0, C string 1, uint8 1). -/
def vcf_type_size_spec (t : Nat) : Nat :=
  if t = VCF_RT_INT8 then 1
  else if t = VCF_RT_INT16 then 2
  else if t = VCF_RT_INT32 then 4
  else if t = VCF_RT_INT64 then 8
  else if t = VCF_RT_FLOAT then 4
  else if t = VCF_RT_BOOL then 0
  else if t = VCF_RT_CSTR then 1
  else if t = VCF_RT_UINT8 then 1
  else 0

/-! ## Typed value I/O -/

/-- Embedding of `vcf_enc_size(s, size, type)`, lines 107-115. -/
def vcf_enc_size (s : kstring_t) (size type : Int) : Enc :=
  if size ≥ 15 then
    if size < 256 then
      let s1 := kputc (Int.lor ((15 : Int) <<< (4 : Int)) type) s
      let s2 := kputc (Int.lor ((1 : Int) <<< (4 : Int)) (VCF_RT_UINT8 : Int)) s1
      Enc.done (kputc size s2)
    else Enc.aborted s
  else Enc.done (kputc (Int.lor (size <<< (4 : Int)) type) s)

/-- Embedding of `vcf_enc_inttype(x)`, lines 117-122. -/
def vcf_enc_inttype (x : Int) : Int :=
  if x ≤ INT8_MAX ∧ x > INT8_MIN then (VCF_RT_INT8 : Int)
  else if x ≤ INT16_MAX ∧ x > INT16_MIN then (VCF_RT_INT16 : Int)
  else (VCF_RT_INT32 : Int)

/-- Embedding of `vcf_enc_int1(s, x)`, lines 124-141. -/
def vcf_enc_int1 (s : kstring_t) (x : Int) : Enc :=
  if x = INT32_MIN then
    match vcf_enc_size s 1 VCF_RT_INT8 with
    | Enc.aborted s1 => Enc.aborted s1
    | Enc.done s1 => Enc.done (kputc INT8_MIN s1)
  else if x ≤ INT8_MAX ∧ x > INT8_MIN then
    match vcf_enc_size s 1 VCF_RT_INT8 with
    | Enc.aborted s1 => Enc.aborted s1
    | Enc.done s1 => Enc.done (kputc x s1)
  else if x ≤ INT16_MAX ∧ x > INT16_MIN then
    let z := x
    match vcf_enc_size s 1 VCF_RT_INT16 with
    | Enc.aborted s1 => Enc.aborted s1
    | Enc.done s1 => Enc.done (kputsn (object_bytes 2 z) 2 s1)
  else
    let z := x
    match vcf_enc_size s 1 VCF_RT_INT32 with
    | Enc.aborted s1 => Enc.aborted s1
    | Enc.done s1 => Enc.done (kputsn (object_bytes 4 z) 4 s1)

/-- The byte `buf[i]`, when the buffer holds it. -/
def byte_at (buf : List Nat) (i : Nat) : Option Nat :=
  buf.get? i

/-- Embedding of `vcf_dec_int1(buf)`, lines 143-149. The INT8 branch returns `buf[1]`, a
`uint8_t`; the other two read a signed object at `buf + 1`. -/
def vcf_dec_int1 (buf : List Nat) : Dec Int :=
  match byte_at buf 0 with
  | none => Dec.fail Fault.outOfBounds
  | some b =>
    if b >>> 4 = 1 ∧ (b &&& 0xf) ≤ 4 then
      if (b &&& 0xf) = VCF_RT_INT8 then
        match byte_at buf 1 with
        | some b1 => Dec.ok (b1 : Int)
        | none => Dec.fail Fault.outOfBounds
      else if (b &&& 0xf) = VCF_RT_INT16 then
        match byte_at buf 1, byte_at buf 2 with
        | some b1, some b2 => Dec.ok (as_signed 16 (b1 + 256 * b2))
        | _, _ => Dec.fail Fault.outOfBounds
      else
        match byte_at buf 1, byte_at buf 2, byte_at buf 3, byte_at buf 4 with
        | some b1, some b2, some b3, some b4 =>
          Dec.ok (as_signed 32 (b1 + 256 * b2 + 65536 * b3 + 16777216 * b4))
        | _, _, _, _ => Dec.fail Fault.outOfBounds
    else Dec.fail Fault.assertion

/-- Embedding of `vcf_dec_size(buf)`, lines 151-155, over the table `vcf_type_size`. -/
def vcf_dec_size (vcf_type_size : Nat → Nat) (buf : List Nat) : Dec Int :=
  match byte_at buf 0 with
  | none => Dec.fail Fault.outOfBounds
  | some b =>
    if b >>> 7 = 0 then Dec.ok (Int.lor (((b >>> 4 : Nat) : Int) <<< (4 : Int)) 1)
    else
      match vcf_dec_int1 (buf.drop 1) with
      | Dec.fail f => Dec.fail f
      | Dec.ok v =>
        match byte_at buf 1 with
        | none => Dec.fail Fault.outOfBounds
        | some b1 =>
          Dec.ok (Int.lor (v <<< (4 : Int)) (((1 + vcf_type_size (b1 &&& 0xf) : Nat) : Int)))

/-! ## Header macros -/

/-- Embedding of the macro `kroundup32(x)`, line 17, on a 32-bit unsigned `x`:
`--x`, five or-shift steps, `++x`, the decrement and the increment wrapping
modulo `2^32`. The value is `x` after the macro has run. -/
def kroundup32 (x : Nat) : Nat :=
  let x0 := (x + 2 ^ 32 - 1) % 2 ^ 32
  let x1 := x0 ||| (x0 >>> 1)
  let x2 := x1 ||| (x1 >>> 2)
  let x3 := x2 ||| (x2 >>> 4)
  let x4 := x3 ||| (x3 >>> 8)
  let x5 := x4 ||| (x4 >>> 16)
  (x5 + 1) % 2 ^ 32

/-- Embedding of the macro `vcf_hdr_n_val(x, _n_alt)`, line 69, for `x` an
`info` word (`uint32_t`, Number:20, var:4, Type:4, ColType:4 from the top) and
`_n_alt` an allele count (the `uint16_t n_alt` of `vcf1_t`). The result is the
integer of the selected arm, as it reads once stored in an `int`; inside the
conditional expression, which C types `unsigned` when `x` is `uint32_t`, the
arms `-2` and `-1` are held as `2^32 - 2` and `2^32 - 1`. -/
def vcf_hdr_n_val (x : Nat) (n_alt : Nat) : Int :=
  if (x >>> 8) &&& 0xf = VCF_VTP_FIXED then ((x >>> 12 : Nat) : Int)
  else if (x >>> 8) &&& 0xf = VCF_VTP_A then (n_alt : Int)
  else if (x >>> 8) &&& 0xf = VCF_VTP_G then -2
  else -1

/-! ## Auxiliary facts -/

theorem and_15_eq_mod (b : Nat) : b &&& 0xf = b % 16 :=
  Nat.and_pow_two_sub_one_eq_mod b 4

theorem shr_4_eq_div (b : Nat) : b >>> 4 = b / 16 :=
  Nat.shiftRight_eq_div_pow b 4

theorem shr_7_eq_div (b : Nat) : b >>> 7 = b / 128 :=
  Nat.shiftRight_eq_div_pow b 7

theorem vcf_enc_size_one_int8 (s : kstring_t) :
    vcf_enc_size s 1 (VCF_RT_INT8 : Int) = Enc.done (s ++ [0x11]) := rfl

theorem vcf_enc_size_one_int16 (s : kstring_t) :
    vcf_enc_size s 1 (VCF_RT_INT16 : Int) = Enc.done (s ++ [0x12]) := rfl

theorem vcf_enc_size_one_int32 (s : kstring_t) :
    vcf_enc_size s 1 (VCF_RT_INT32 : Int) = Enc.done (s ++ [0x13]) := rfl

/-- The sentinel branch of `vcf_enc_int1`. -/
theorem vcf_enc_int1_missing (s : kstring_t) :
    vcf_enc_int1 s INT32_MIN = Enc.done (s ++ [0x11, 0x80]) := by
  simp [vcf_enc_int1, vcf_enc_size_one_int8, kputc, INT8_MIN]

/-- The INT8 branch of `vcf_enc_int1`. -/
theorem vcf_enc_int1_int8 (s : kstring_t) (x : Int) (h1 : -127 ≤ x) (h2 : x ≤ 127) :
    vcf_enc_int1 s x = Enc.done (s ++ [0x11, (x % 256).toNat]) := by
  have h3 : x ≠ INT32_MIN := by simp only [INT32_MIN]; omega
  have h4 : x ≤ INT8_MAX ∧ x > INT8_MIN := by simp only [INT8_MAX, INT8_MIN]; omega
  simp [vcf_enc_int1, vcf_enc_size_one_int8, kputc, h3, h4]

/-- The INT16 branch of `vcf_enc_int1`. -/
theorem vcf_enc_int1_int16 (s : kstring_t) (x : Int) (h1 : -32767 ≤ x) (h2 : x ≤ 32767)
    (h3 : x < -127 ∨ 127 < x) :
    vcf_enc_int1 s x
      = Enc.done (s ++ [0x12, (x % 256).toNat, (x / 256 % 256).toNat]) := by
  have h4 : x ≠ INT32_MIN := by simp only [INT32_MIN]; omega
  have h5 : ¬ (x ≤ INT8_MAX ∧ x > INT8_MIN) := by simp only [INT8_MAX, INT8_MIN]; omega
  have h6 : x ≤ INT16_MAX ∧ x > INT16_MIN := by simp only [INT16_MAX, INT16_MIN]; omega
  simp [vcf_enc_int1, vcf_enc_size_one_int16, kputsn, object_bytes, h4, h5, h6]

/-- The INT32 branch of `vcf_enc_int1`. -/
theorem vcf_enc_int1_int32 (s : kstring_t) (x : Int) (h1 : x ≠ INT32_MIN)
    (h2 : x < -32767 ∨ 32767 < x) :
    vcf_enc_int1 s x
      = Enc.done (s ++ [0x13, (x % 256).toNat, (x / 256 % 256).toNat,
          (x / 256 / 256 % 256).toNat, (x / 256 / 256 / 256 % 256).toNat]) := by
  have h5 : ¬ (x ≤ INT8_MAX ∧ x > INT8_MIN) := by simp only [INT8_MAX, INT8_MIN]; omega
  have h6 : ¬ (x ≤ INT16_MAX ∧ x > INT16_MIN) := by simp only [INT16_MAX, INT16_MIN]; omega
  simp [vcf_enc_int1, vcf_enc_size_one_int32, kputsn, object_bytes, h1, h5, h6]

/-- What `vcf_dec_int1` returns on an INT8 descriptor and one payload byte. -/
theorem vcf_dec_int1_int8 (b : Nat) (rest : List Nat) :
    vcf_dec_int1 (0x11 :: b :: rest) = Dec.ok (b : Int) := by
  simp [vcf_dec_int1, byte_at, VCF_RT_INT8, and_15_eq_mod]

/-- What `vcf_dec_int1` returns on an INT16 descriptor and two payload bytes. -/
theorem vcf_dec_int1_int16 (lo hi : Nat) (rest : List Nat) :
    vcf_dec_int1 (0x12 :: lo :: hi :: rest) = Dec.ok (as_signed 16 (lo + 256 * hi)) := by
  simp [vcf_dec_int1, byte_at, VCF_RT_INT8, VCF_RT_INT16, and_15_eq_mod]

/-- What `vcf_dec_int1` returns on an INT32 descriptor and four payload bytes. -/
theorem vcf_dec_int1_int32 (b1 b2 b3 b4 : Nat) (rest : List Nat) :
    vcf_dec_int1 (0x13 :: b1 :: b2 :: b3 :: b4 :: rest)
      = Dec.ok (as_signed 32 (b1 + 256 * b2 + 65536 * b3 + 16777216 * b4)) := by
  simp [vcf_dec_int1, byte_at, VCF_RT_INT8, VCF_RT_INT16, and_15_eq_mod]

/-- Two's-complement reading of the two bytes `object_bytes` stores for a
16-bit value gives the value back. -/
theorem as_signed_16_bytes (x : Int) (h1 : -32768 ≤ x) (h2 : x ≤ 32767) :
    as_signed 16 ((x % 256).toNat + 256 * (x / 256 % 256).toNat) = x := by
  unfold as_signed
  have e1 : (((x % 256).toNat : Nat) : Int) = x % 256 := Int.toNat_of_nonneg (by omega)
  have e2 : (((x / 256 % 256).toNat : Nat) : Int) = x / 256 % 256 :=
    Int.toNat_of_nonneg (by omega)
  split
  · rename_i h
    have h3 : (((x % 256).toNat + 256 * (x / 256 % 256).toNat : Nat) : Int) < 32768 := by
      exact_mod_cast h
    push_cast at h3 ⊢
    omega
  · rename_i h
    have h3 : ¬ (((x % 256).toNat + 256 * (x / 256 % 256).toNat : Nat) : Int) < 32768 := by
      intro h4
      apply h
      have h5 : (x % 256).toNat + 256 * (x / 256 % 256).toNat < 32768 := by exact_mod_cast h4
      simpa using h5
    push_cast at h3 ⊢
    omega

/-- Two's-complement reading of the four bytes `object_bytes` stores for a
32-bit value gives the value back. -/
theorem as_signed_32_bytes (x : Int) (h1 : -2147483648 ≤ x) (h2 : x ≤ 2147483647) :
    as_signed 32 ((x % 256).toNat + 256 * (x / 256 % 256).toNat
      + 65536 * (x / 256 / 256 % 256).toNat
      + 16777216 * (x / 256 / 256 / 256 % 256).toNat) = x := by
  unfold as_signed
  have e1 : (((x % 256).toNat : Nat) : Int) = x % 256 := Int.toNat_of_nonneg (by omega)
  have e2 : (((x / 256 % 256).toNat : Nat) : Int) = x / 256 % 256 :=
    Int.toNat_of_nonneg (by omega)
  have e3 : (((x / 256 / 256 % 256).toNat : Nat) : Int) = x / 256 / 256 % 256 :=
    Int.toNat_of_nonneg (by omega)
  have e4 : (((x / 256 / 256 / 256 % 256).toNat : Nat) : Int) = x / 256 / 256 / 256 % 256 :=
    Int.toNat_of_nonneg (by omega)
  split
  · rename_i h
    have h3 : (((x % 256).toNat + 256 * (x / 256 % 256).toNat
        + 65536 * (x / 256 / 256 % 256).toNat
        + 16777216 * (x / 256 / 256 / 256 % 256).toNat : Nat) : Int) < 2147483648 := by
      exact_mod_cast h
    push_cast at h3 ⊢
    omega
  · rename_i h
    have h3 : ¬ (((x % 256).toNat + 256 * (x / 256 % 256).toNat
        + 65536 * (x / 256 / 256 % 256).toNat
        + 16777216 * (x / 256 / 256 / 256 % 256).toNat : Nat) : Int) < 2147483648 := by
      intro h4
      apply h
      have h5 : (x % 256).toNat + 256 * (x / 256 % 256).toNat
        + 65536 * (x / 256 / 256 % 256).toNat
        + 16777216 * (x / 256 / 256 / 256 % 256).toNat < 2147483648 := by exact_mod_cast h4
      simpa using h5
    push_cast at h3 ⊢
    omega

/-! ## Integer round trip -/

/-- C1 as stated fails at the missing sentinel: the bytes `vcf_enc_int1` appends
to an empty buffer for `INT32_MIN` do not decode to `INT32_MIN`. -/
theorem missing_sentinel_not_round_trip :
    ¬ ∃ bytes, vcf_enc_int1 [] INT32_MIN = Enc.done bytes
      ∧ vcf_dec_int1 bytes = Dec.ok INT32_MIN := by
  rintro ⟨bytes, h1, h2⟩
  rw [vcf_enc_int1_missing] at h1
  injection h1 with h1
  subst h1
  revert h2
  decide

/-- C1 (amended): for every 32-bit signed integer `x` other than `INT32_MIN`
that is non-negative or at most `-128`, `vcf_enc_int1` on an empty buffer
returns normally and `vcf_dec_int1` on the bytes it appended returns `x`. -/
theorem vcf_int1_round_trip (x : Int) (hmin : INT32_MIN < x) (hmax : x ≤ INT32_MAX)
    (hx : 0 ≤ x ∨ x ≤ -128) :
    ∃ bytes, vcf_enc_int1 [] x = Enc.done bytes ∧ vcf_dec_int1 bytes = Dec.ok x := by
  simp only [INT32_MIN, INT32_MAX] at hmin hmax
  by_cases h8 : 0 ≤ x ∧ x ≤ 127
  · refine ⟨_, vcf_enc_int1_int8 [] x (by omega) h8.2, ?_⟩
    rw [List.nil_append, vcf_dec_int1_int8]
    congr 1
    omega
  · by_cases h16 : -32767 ≤ x ∧ x ≤ 32767
    · refine ⟨_, vcf_enc_int1_int16 [] x h16.1 h16.2 (by omega), ?_⟩
      rw [List.nil_append, vcf_dec_int1_int16, as_signed_16_bytes x (by omega) h16.2]
    · refine ⟨_, vcf_enc_int1_int32 [] x (by simp only [INT32_MIN]; omega) (by omega), ?_⟩
      rw [List.nil_append, vcf_dec_int1_int32, as_signed_32_bytes x (by omega) hmax]

/-- C1 (amended), at `x = -70000`, which takes the INT32 branch. -/
theorem vcf_int1_round_trip_witness :
    (INT32_MIN < (-70000 : Int) ∧ (-70000 : Int) ≤ INT32_MAX
      ∧ ((0 : Int) ≤ -70000 ∨ (-70000 : Int) ≤ -128))
    ∧ ∃ bytes, vcf_enc_int1 [] (-70000) = Enc.done bytes
        ∧ vcf_dec_int1 bytes = Dec.ok (-70000) :=
  ⟨by decide, vcf_int1_round_trip (-70000) (by decide) (by decide) (by decide)⟩

/-! ## Size descriptors: decoding -/

/-- C2: the decoder leaves its fast path at count 8. `vcf_enc_size(s, 8, INT8)`
writes the single byte `0x81`; on that byte followed by eight zero payload bytes
`vcf_dec_size` stops in the assertion of `vcf_dec_int1`, and on that byte
followed by a payload starting `0x11 0x05` it returns `82`, where the encoded
count and offset are `(8 << 4) | 1 = 129`. -/
theorem vcf_dec_size_count_8_diverges :
    vcf_enc_size [] 8 (VCF_RT_INT8 : Int) = Enc.done [0x81]
    ∧ vcf_dec_size vcf_type_size_spec [0x81, 0, 0, 0, 0, 0, 0, 0, 0]
        = Dec.fail Fault.assertion
    ∧ vcf_dec_size vcf_type_size_spec [0x81, 0x11, 5, 0, 0, 0, 0, 0, 0] = Dec.ok 82
    ∧ Int.lor ((8 : Int) <<< (4 : Int)) 1 = 129 := by
  decide

/-- Every descriptor byte with count nibble 8..14 sends `vcf_dec_size` to
`vcf_dec_int1` on the payload, so a payload whose first byte does not have
count nibble 1 stops the run in the assertion. -/
theorem vcf_dec_size_count_ge_8_reads_payload (tbl : Nat → Nat) (b p : Nat)
    (rest : List Nat) (hb : 128 ≤ b) (hp : p / 16 ≠ 1) :
    vcf_dec_size tbl (b :: p :: rest) = Dec.fail Fault.assertion := by
  have h7 : ¬ b / 128 = 0 := by omega
  simp [vcf_dec_size, vcf_dec_int1, byte_at, shr_7_eq_div, shr_4_eq_div, h7, hp]

/-- C3: the escaped descriptors that `vcf_enc_size` writes for the counts 15
and 255 are `[0xF1, 0x1D, n]`, and `vcf_dec_size` stops on them in the assertion
of `vcf_dec_int1`, whose bound `<= 4` excludes the tag `VCF_RT_UINT8 = 13`. -/
theorem vcf_dec_size_escaped_rejected :
    vcf_enc_size [] 15 (VCF_RT_INT8 : Int) = Enc.done [0xF1, 0x1D, 15]
    ∧ vcf_dec_size vcf_type_size_spec [0xF1, 0x1D, 15] = Dec.fail Fault.assertion
    ∧ vcf_enc_size [] 255 (VCF_RT_INT8 : Int) = Enc.done [0xF1, 0x1D, 255]
    ∧ vcf_dec_size vcf_type_size_spec [0xF1, 0x1D, 255] = Dec.fail Fault.assertion := by
  decide

/-- Whatever the table, the count and the payload, a buffer that starts with a
byte whose top bit is set followed by the inline descriptor `0x1D` stops
`vcf_dec_size` in the assertion. -/
theorem vcf_dec_size_uint8_descriptor_rejected (tbl : Nat → Nat) (b : Nat)
    (rest : List Nat) (hb : 128 ≤ b) :
    vcf_dec_size tbl (b :: 0x1D :: rest) = Dec.fail Fault.assertion := by
  have h7 : ¬ b / 128 = 0 := by omega
  simp [vcf_dec_size, vcf_dec_int1, byte_at, shr_7_eq_div, and_15_eq_mod, h7]

/-! ## Integer width selection -/

/-- C4 as stated fails at `x = -128`: it lies in the int8 range and is not
`INT32_MIN`, yet `vcf_enc_inttype` returns `VCF_RT_INT16` and `vcf_enc_int1`
writes an INT16 descriptor with two payload bytes. -/
theorem vcf_enc_inttype_int8_min_is_int16 :
    ((-128 : Int) ≠ INT32_MIN ∧ (-128 : Int) ≤ -128 ∧ (-128 : Int) ≤ 127)
    ∧ vcf_enc_inttype (-128) ≠ (VCF_RT_INT8 : Int)
    ∧ vcf_enc_inttype (-128) = (VCF_RT_INT16 : Int)
    ∧ vcf_enc_int1 [] (-128) = Enc.done [0x12, 0x80, 0xFF] := by
  decide

/-- C4 (amended): for every `x` other than `INT32_MIN`, the tag returned by
`vcf_enc_inttype x` and written in the descriptor byte of `vcf_enc_int1 s x` is
INT8 when `-127 ≤ x ≤ 127`, otherwise INT16 when `-32767 ≤ x ≤ 32767`,
otherwise INT32: the narrowest width whose range without its minimum value
contains `x`. -/
theorem vcf_enc_narrowest_width (s : kstring_t) (x : Int) (hx : x ≠ INT32_MIN) :
    ((-127 ≤ x ∧ x ≤ 127) →
      vcf_enc_inttype x = (VCF_RT_INT8 : Int)
      ∧ ∃ payload, vcf_enc_int1 s x = Enc.done (s ++ (0x10 ||| VCF_RT_INT8) :: payload))
    ∧ (¬ (-127 ≤ x ∧ x ≤ 127) → (-32767 ≤ x ∧ x ≤ 32767) →
      vcf_enc_inttype x = (VCF_RT_INT16 : Int)
      ∧ ∃ payload, vcf_enc_int1 s x = Enc.done (s ++ (0x10 ||| VCF_RT_INT16) :: payload))
    ∧ (¬ (-32767 ≤ x ∧ x ≤ 32767) →
      vcf_enc_inttype x = (VCF_RT_INT32 : Int)
      ∧ ∃ payload, vcf_enc_int1 s x = Enc.done (s ++ (0x10 ||| VCF_RT_INT32) :: payload)) := by
  refine ⟨fun h => ⟨?_, _, vcf_enc_int1_int8 s x h.1 h.2⟩,
    fun h8 h => ⟨?_, _, vcf_enc_int1_int16 s x h.1 h.2 (by omega)⟩,
    fun h => ⟨?_, _, vcf_enc_int1_int32 s x hx (by omega)⟩⟩
  · have h4 : x ≤ INT8_MAX ∧ x > INT8_MIN := by simp only [INT8_MAX, INT8_MIN]; omega
    simp [vcf_enc_inttype, h4]
  · have h5 : ¬ (x ≤ INT8_MAX ∧ x > INT8_MIN) := by simp only [INT8_MAX, INT8_MIN]; omega
    have h6 : x ≤ INT16_MAX ∧ x > INT16_MIN := by simp only [INT16_MAX, INT16_MIN]; omega
    simp [vcf_enc_inttype, h5, h6]
  · have h5 : ¬ (x ≤ INT8_MAX ∧ x > INT8_MIN) := by simp only [INT8_MAX, INT8_MIN]; omega
    have h6 : ¬ (x ≤ INT16_MAX ∧ x > INT16_MIN) := by
      simp only [INT16_MAX, INT16_MIN]; omega
    simp [vcf_enc_inttype, h5, h6]

/-- C4 (amended), at `x = -129`, the first value below the INT8 branch. -/
theorem vcf_enc_narrowest_width_witness :
    (-129 : Int) ≠ INT32_MIN
    ∧ vcf_enc_inttype (-129) = (VCF_RT_INT16 : Int)
    ∧ ∃ payload, vcf_enc_int1 [] (-129)
        = Enc.done ([] ++ (0x10 ||| VCF_RT_INT16) :: payload) :=
  ⟨by decide,
    (vcf_enc_narrowest_width [] (-129) (by decide)).2.1 (by decide) (by decide)⟩

/-! ## Decoding a single integer -/

/-- C5: on the INT8 encoding `[0x11, 0xFF]` `vcf_dec_int1` returns `255`, the
unsigned reading of the payload byte, where its two's-complement value is
`-1`; `vcf_enc_int1` writes exactly these bytes for `-1`. -/
theorem vcf_dec_int1_int8_unsigned :
    vcf_dec_int1 [0x11, 0xFF] = Dec.ok 255
    ∧ as_signed 8 0xFF = -1
    ∧ vcf_enc_int1 [] (-1) = Enc.done [0x11, 0xFF] := by
  decide

/-- The INT16 half of C5: on `[0x12, lo, hi]` `vcf_dec_int1` returns the
two's-complement value of the little-endian pair, which lies in
`-32768..32767` and is congruent to `lo + 256 * hi` modulo `65536`. -/
theorem vcf_dec_int1_int16_signed (lo hi : Nat) (hlo : lo < 256) (hhi : hi < 256) :
    ∃ v : Int, vcf_dec_int1 [0x12, lo, hi] = Dec.ok v
      ∧ -32768 ≤ v ∧ v ≤ 32767 ∧ v % 65536 = ((lo + 256 * hi : Nat) : Int) := by
  refine ⟨_, vcf_dec_int1_int16 lo hi [], ?_⟩
  unfold as_signed
  split
  · rename_i h
    have h3 : lo + 256 * hi < 32768 := by simpa using h
    omega
  · rename_i h
    have h3 : ¬ lo + 256 * hi < 32768 := by simpa using h
    omega

/-- C6 as stated fails at the tags 0 and `VCF_RT_INT64 = 4`: with count nibble 1
they pass the assertion `(*buf&0xf) <= 4` and `vcf_dec_int1` returns the 32-bit
value read at `buf + 1`. -/
theorem vcf_dec_int1_accepts_tag_0_and_4 :
    vcf_dec_int1 [0x10, 1, 0, 0, 0] = Dec.ok 1
    ∧ vcf_dec_int1 [0x14, 1, 0, 0, 0] = Dec.ok 1 := by
  decide

/-- C6 (amended): for every descriptor byte whose type tag (low nibble) is
greater than 4, `vcf_dec_int1` stops in its assertion, whatever bytes follow. -/
theorem vcf_dec_int1_rejects_tag_above_4 (b : Nat) (rest : List Nat) (h : 4 < b % 16) :
    vcf_dec_int1 (b :: rest) = Dec.fail Fault.assertion := by
  have h1 : ¬ b % 16 ≤ 4 := by omega
  simp [vcf_dec_int1, byte_at, and_15_eq_mod, h1]

/-- C6 (amended), at the descriptor `0x1D` (count 1, `VCF_RT_UINT8`). -/
theorem vcf_dec_int1_rejects_tag_above_4_witness :
    4 < 0x1D % 16 ∧ 0x1D % 16 = VCF_RT_UINT8
    ∧ vcf_dec_int1 [0x1D, 7] = Dec.fail Fault.assertion :=
  ⟨by decide, by decide, vcf_dec_int1_rejects_tag_above_4 0x1D [7] (by decide)⟩

/-! ## Size descriptors: encoding -/

/-- C7: for every count `n ≤ 14` and type tag `t ≤ 15`, `vcf_enc_size s n t`
returns normally having appended exactly one byte, `(n << 4) | t`, whose high
nibble is `n` and whose low nibble is `t`. -/
theorem vcf_enc_size_non_escaped (s : kstring_t) (n t : Nat) (hn : n ≤ 14) (ht : t ≤ 15) :
    vcf_enc_size s (n : Int) (t : Int) = Enc.done (s ++ [n <<< 4 ||| t])
    ∧ (n <<< 4 ||| t) / 16 = n ∧ (n <<< 4 ||| t) % 16 = t := by
  interval_cases n <;> interval_cases t <;> exact ⟨rfl, rfl, rfl⟩

/-- C7 at count 14 and tag 15, the largest non-escaped descriptor. -/
theorem vcf_enc_size_non_escaped_witness :
    (14 ≤ 14 ∧ 15 ≤ 15)
    ∧ vcf_enc_size [3] ((14 : Nat) : Int) ((15 : Nat) : Int)
        = Enc.done ([3] ++ [14 <<< 4 ||| 15])
    ∧ (14 <<< 4 ||| 15) / 16 = 14 ∧ (14 <<< 4 ||| 15) % 16 = 15 :=
  ⟨by decide, vcf_enc_size_non_escaped [3] 14 15 (by decide) (by decide)⟩

/-- C8: for every count `15 ≤ n ≤ 255` and type tag `t ≤ 15`,
`vcf_enc_size s n t` returns normally having appended exactly three bytes:
`(15 << 4) | t`, then `(1 << 4) | VCF_RT_UINT8 = 0x1D`, then the byte `n`. -/
theorem vcf_enc_size_escaped (s : kstring_t) (n t : Nat) (hn : 15 ≤ n) (hn2 : n ≤ 255)
    (ht : t ≤ 15) :
    vcf_enc_size s (n : Int) (t : Int)
        = Enc.done (s ++ [15 <<< 4 ||| t, 1 <<< 4 ||| VCF_RT_UINT8, n])
    ∧ (1 <<< 4 ||| VCF_RT_UINT8) = 0x1D := by
  refine ⟨?_, rfl⟩
  have h1 : (n : Int) ≥ 15 := by omega
  have h2 : (n : Int) < 256 := by omega
  have h3 : ((n : Int) % 256).toNat = n := by omega
  have h4 : ((Int.lor ((15 : Int) <<< (4 : Int)) (t : Int)) % 256).toNat = 15 <<< 4 ||| t := by
    interval_cases t <;> rfl
  have h5 : ((Int.lor ((1 : Int) <<< (4 : Int)) (VCF_RT_UINT8 : Int)) % 256).toNat
      = 1 <<< 4 ||| VCF_RT_UINT8 := rfl
  simp only [vcf_enc_size, kputc, h1, h2, h3, h4, h5, if_true, List.append_assoc,
    List.singleton_append, List.cons_append, List.nil_append]

/-- C8 at the two ends of the escaped range, counts 15 and 255. -/
theorem vcf_enc_size_escaped_witness :
    (15 ≤ 15 ∧ 15 ≤ 255 ∧ 255 ≤ 255 ∧ 2 ≤ 15)
    ∧ vcf_enc_size [] ((15 : Nat) : Int) ((2 : Nat) : Int) = Enc.done [0xF2, 0x1D, 15]
    ∧ vcf_enc_size [] ((255 : Nat) : Int) ((2 : Nat) : Int) = Enc.done [0xF2, 0x1D, 255] :=
  ⟨by decide,
    (vcf_enc_size_escaped [] 15 2 (by decide) (by decide) (by decide)).1,
    (vcf_enc_size_escaped [] 255 2 (by decide) (by decide) (by decide)).1⟩

/-- C9: for every count `n ≥ 256` and every type tag, `vcf_enc_size` stops in
its assertion with the buffer as it was on entry: no byte has been appended. -/
theorem vcf_enc_size_oversized_aborts (s : kstring_t) (n t : Int) (hn : 256 ≤ n) :
    vcf_enc_size s n t = Enc.aborted s := by
  have h1 : n ≥ 15 := by omega
  have h2 : ¬ n < 256 := by omega
  simp [vcf_enc_size, h1, h2]

/-- C9 at count 256. -/
theorem vcf_enc_size_oversized_aborts_witness :
    (256 : Int) ≤ 256 ∧ vcf_enc_size [1, 2] 256 (VCF_RT_INT8 : Int) = Enc.aborted [1, 2] :=
  ⟨by decide, vcf_enc_size_oversized_aborts [1, 2] 256 (VCF_RT_INT8 : Int) (by decide)⟩

/-! ## The missing-value sentinel -/

/-- C10: `vcf_enc_int1 s INT32_MIN` appends exactly the two bytes `[0x11, 0x80]`
(count 1, type INT8, the byte pattern of `INT8_MIN`), and for no other `x` does
`vcf_enc_int1 s x` append an INT8 descriptor followed by the byte `0x80`. -/
theorem vcf_enc_int1_missing_marker (s : kstring_t) :
    vcf_enc_int1 s INT32_MIN = Enc.done (s ++ [0x10 ||| VCF_RT_INT8, (INT8_MIN % 256).toNat])
    ∧ (0x10 ||| VCF_RT_INT8 = 0x11 ∧ (INT8_MIN % 256).toNat = 0x80)
    ∧ ∀ x : Int, x ≠ INT32_MIN → ∀ rest : List Nat,
        vcf_enc_int1 s x ≠ Enc.done (s ++ 0x11 :: 0x80 :: rest) := by
  refine ⟨vcf_enc_int1_missing s, ⟨rfl, rfl⟩, ?_⟩
  intro x hx rest h
  by_cases h8 : -127 ≤ x ∧ x ≤ 127
  · rw [vcf_enc_int1_int8 s x h8.1 h8.2] at h
    injection h with h
    have h1 := List.append_cancel_left h
    simp only [List.cons.injEq, true_and] at h1
    have h2 := h1.1
    omega
  · by_cases h16 : -32767 ≤ x ∧ x ≤ 32767
    · rw [vcf_enc_int1_int16 s x h16.1 h16.2 (by omega)] at h
      injection h with h
      have h1 := List.append_cancel_left h
      simp at h1
    · rw [vcf_enc_int1_int32 s x hx (by omega)] at h
      injection h with h
      have h1 := List.append_cancel_left h
      simp at h1

/-- C10 at `x = -128`, the value whose own INT8 pattern would be `0x80`: it is
written as INT16 and not as the marker. -/
theorem vcf_enc_int1_missing_marker_witness :
    (-128 : Int) ≠ INT32_MIN
    ∧ vcf_enc_int1 [] (-128) ≠ Enc.done ([] ++ 0x11 :: 0x80 :: []) :=
  ⟨by decide, (vcf_enc_int1_missing_marker []).2.2 (-128) (by decide) []⟩

/-! ## Cardinality of a header key -/

/-- The variability nibble tested by `vcf_hdr_n_val` is bits 8..11 of `x`. -/
theorem var_nibble_eq (x : Nat) : (x >>> 8) &&& 0xf = x / 256 % 16 := by
  rw [and_15_eq_mod, Nat.shiftRight_eq_div_pow]

/-- The Number field returned by `vcf_hdr_n_val` is bits 12 and up of `x`. -/
theorem number_field_eq (x : Nat) : x >>> 12 = x / 4096 :=
  Nat.shiftRight_eq_div_pow x 12

/-- C11: for every info word `x` whose variability nibble (bits 8..11) is
`VCF_VTP_FIXED` and whose Number field (bits 12..31) is `n`, and every allele
count `n_alt`, `vcf_hdr_n_val x n_alt` equals `n`. -/
theorem vcf_hdr_n_val_fixed (x n n_alt : Nat) (hv : x / 256 % 16 = VCF_VTP_FIXED)
    (hn : x / 4096 = n) :
    vcf_hdr_n_val x n_alt = (n : Int) := by
  simp [vcf_hdr_n_val, var_nibble_eq, number_field_eq, hv, hn]

/-- C11 at a Fixed(1) key, `x = 0x1011` (Number 1, var FIXED, Type 1,
ColType 1), with three alleles and with none. -/
theorem vcf_hdr_n_val_fixed_witness :
    (0x1011 / 256 % 16 = VCF_VTP_FIXED ∧ 0x1011 / 4096 = 1)
    ∧ vcf_hdr_n_val 0x1011 3 = ((1 : Nat) : Int)
    ∧ vcf_hdr_n_val 0x1011 0 = ((1 : Nat) : Int) :=
  ⟨by decide, vcf_hdr_n_val_fixed 0x1011 1 3 (by decide) (by decide),
    vcf_hdr_n_val_fixed 0x1011 1 0 (by decide) (by decide)⟩

/-- C12: for every info word `x` whose variability nibble (bits 8..11) is
`VCF_VTP_A`, whatever its other bits, and every allele count `n_alt`,
`vcf_hdr_n_val x n_alt` equals `n_alt`. -/
theorem vcf_hdr_n_val_per_allele (x n_alt : Nat) (hv : x / 256 % 16 = VCF_VTP_A) :
    vcf_hdr_n_val x n_alt = (n_alt : Int) := by
  have h0 : ¬ VCF_VTP_A = VCF_VTP_FIXED := by decide
  simp [vcf_hdr_n_val, var_nibble_eq, hv, h0]

/-- C12 at `x = 0xABCDE2F7` (var nibble `VCF_VTP_A`) and three alleles. -/
theorem vcf_hdr_n_val_per_allele_witness :
    0xABCDE2F7 / 256 % 16 = VCF_VTP_A
    ∧ vcf_hdr_n_val 0xABCDE2F7 3 = ((3 : Nat) : Int) :=
  ⟨by decide, vcf_hdr_n_val_per_allele 0xABCDE2F7 3 (by decide)⟩

/-- C13: for every 32-bit info word `x` and every `n_alt`, `vcf_hdr_n_val` is
`-2` when the variability nibble is `VCF_VTP_G` and `-1` when it is none of
FIXED, A, G (so for `VCF_VTP_VAR`); the two sentinels differ, and a FIXED key
returns a value in `0..2^20 - 1`, different from both sentinels, also when all
three are held modulo `2^32`. -/
theorem vcf_hdr_n_val_sentinels (x n_alt : Nat) (hx : x < 4294967296) :
    (x / 256 % 16 = VCF_VTP_G → vcf_hdr_n_val x n_alt = -2)
    ∧ (x / 256 % 16 = VCF_VTP_VAR → vcf_hdr_n_val x n_alt = -1)
    ∧ (x / 256 % 16 ≠ VCF_VTP_FIXED → x / 256 % 16 ≠ VCF_VTP_A →
        x / 256 % 16 ≠ VCF_VTP_G → vcf_hdr_n_val x n_alt = -1)
    ∧ ((-2 : Int) ≠ -1 ∧ (-2 : Int) % 4294967296 ≠ (-1 : Int) % 4294967296)
    ∧ (x / 256 % 16 = VCF_VTP_FIXED →
        0 ≤ vcf_hdr_n_val x n_alt ∧ vcf_hdr_n_val x n_alt ≤ 1048575
        ∧ vcf_hdr_n_val x n_alt ≠ -2 ∧ vcf_hdr_n_val x n_alt ≠ -1
        ∧ vcf_hdr_n_val x n_alt % 4294967296 ≠ (-2 : Int) % 4294967296
        ∧ vcf_hdr_n_val x n_alt % 4294967296 ≠ (-1 : Int) % 4294967296) := by
  have other : x / 256 % 16 ≠ VCF_VTP_FIXED → x / 256 % 16 ≠ VCF_VTP_A →
      x / 256 % 16 ≠ VCF_VTP_G → vcf_hdr_n_val x n_alt = -1 := by
    intro h0 h2 h3
    simp [vcf_hdr_n_val, var_nibble_eq, h0, h2, h3]
  refine ⟨?_, ?_, other, by decide, ?_⟩
  · intro h
    have h0 : ¬ VCF_VTP_G = VCF_VTP_FIXED := by decide
    have h2 : ¬ VCF_VTP_G = VCF_VTP_A := by decide
    simp [vcf_hdr_n_val, var_nibble_eq, h, h0, h2]
  · intro h
    exact other (by rw [h]; decide) (by rw [h]; decide) (by rw [h]; decide)
  · intro h
    have e : vcf_hdr_n_val x n_alt = ((x / 4096 : Nat) : Int) :=
      by simp [vcf_hdr_n_val, var_nibble_eq, number_field_eq, h]
    rw [e]
    omega

/-- C13 at `x = 0x7311` (var nibble `VCF_VTP_G`), `x = 0x7111` (`VCF_VTP_VAR`)
and `x = 0xFFFFF011` (FIXED with the largest Number). -/
theorem vcf_hdr_n_val_sentinels_witness :
    (0x7311 < 4294967296 ∧ 0x7311 / 256 % 16 = VCF_VTP_G
      ∧ 0x7111 < 4294967296 ∧ 0x7111 / 256 % 16 = VCF_VTP_VAR
      ∧ 0xFFFFF011 < 4294967296 ∧ 0xFFFFF011 / 256 % 16 = VCF_VTP_FIXED)
    ∧ vcf_hdr_n_val 0x7311 3 = -2
    ∧ vcf_hdr_n_val 0x7111 3 = -1
    ∧ vcf_hdr_n_val 0xFFFFF011 3 ≤ 1048575 :=
  ⟨by decide,
    (vcf_hdr_n_val_sentinels 0x7311 3 (by decide)).1 (by decide),
    (vcf_hdr_n_val_sentinels 0x7111 3 (by decide)).2.1 (by decide),
    ((vcf_hdr_n_val_sentinels 0xFFFFF011 3 (by decide)).2.2.2.2 (by decide)).2.1⟩

/-! ## Encode after decode -/

/-- The bytes `object_bytes` stores for the value read from a 16-bit
little-endian pair are that pair. -/
theorem bytes_of_as_signed_16 (lo hi : Nat) (hlo : lo < 256) (hhi : hi < 256) :
    (as_signed 16 (lo + 256 * hi) % 256).toNat = lo
    ∧ (as_signed 16 (lo + 256 * hi) / 256 % 256).toNat = hi
    ∧ -32768 ≤ as_signed 16 (lo + 256 * hi) ∧ as_signed 16 (lo + 256 * hi) ≤ 32767 := by
  unfold as_signed
  split
  · rename_i h
    have h3 : lo + 256 * hi < 32768 := by simpa using h
    push_cast
    omega
  · rename_i h
    have h3 : ¬ lo + 256 * hi < 32768 := by simpa using h
    push_cast
    omega

/-- The bytes `object_bytes` stores for the value read from a 32-bit
little-endian quadruple are that quadruple. -/
theorem bytes_of_as_signed_32 (b1 b2 b3 b4 : Nat) (h1 : b1 < 256) (h2 : b2 < 256)
    (h3 : b3 < 256) (h4 : b4 < 256) :
    (as_signed 32 (b1 + 256 * b2 + 65536 * b3 + 16777216 * b4) % 256).toNat = b1
    ∧ (as_signed 32 (b1 + 256 * b2 + 65536 * b3 + 16777216 * b4) / 256 % 256).toNat = b2
    ∧ (as_signed 32 (b1 + 256 * b2 + 65536 * b3 + 16777216 * b4) / 256 / 256 % 256).toNat
        = b3
    ∧ (as_signed 32 (b1 + 256 * b2 + 65536 * b3 + 16777216 * b4)
        / 256 / 256 / 256 % 256).toNat = b4 := by
  unfold as_signed
  split
  · rename_i h
    have h5 : b1 + 256 * b2 + 65536 * b3 + 16777216 * b4 < 2147483648 := by simpa using h
    push_cast
    omega
  · rename_i h
    have h5 : ¬ b1 + 256 * b2 + 65536 * b3 + 16777216 * b4 < 2147483648 := by
      simpa using h
    push_cast
    omega

/-- C14 as stated fails at the well-formed INT16 encoding `[0x12, 0x05, 0x00]`
of the value 5: `vcf_dec_int1` returns 5 and `vcf_enc_int1` writes 5 in the
narrower form `[0x11, 0x05]`. -/
theorem vcf_int1_reencode_narrows :
    vcf_dec_int1 [0x12, 0x05, 0x00] = Dec.ok 5
    ∧ vcf_enc_int1 [] 5 = Enc.done [0x11, 0x05]
    ∧ vcf_enc_int1 [] 5 ≠ Enc.done [0x12, 0x05, 0x00] := by
  decide

/-- C14 (amended): for every well-formed single-integer encoding `b` that uses
the width the encoder chooses for the value it holds (INT8 with a payload byte
in `0..127`; INT16 holding a value in `-32767..-128` or `128..32767`; INT32
holding a value other than `INT32_MIN` that is at most `-32768` or at least
`32768`), `vcf_dec_int1 b` returns a value `v` and `vcf_enc_int1 s v` appends
exactly `b`. -/
theorem vcf_int1_reencode_canonical (s : kstring_t) :
    (∀ p : Nat, p ≤ 127 →
      ∃ v, vcf_dec_int1 [0x11, p] = Dec.ok v
        ∧ vcf_enc_int1 s v = Enc.done (s ++ [0x11, p]))
    ∧ (∀ lo hi : Nat, lo < 256 → hi < 256 →
      ((-32767 ≤ as_signed 16 (lo + 256 * hi) ∧ as_signed 16 (lo + 256 * hi) ≤ -128)
        ∨ 128 ≤ as_signed 16 (lo + 256 * hi)) →
      ∃ v, vcf_dec_int1 [0x12, lo, hi] = Dec.ok v
        ∧ vcf_enc_int1 s v = Enc.done (s ++ [0x12, lo, hi]))
    ∧ (∀ b1 b2 b3 b4 : Nat, b1 < 256 → b2 < 256 → b3 < 256 → b4 < 256 →
      (as_signed 32 (b1 + 256 * b2 + 65536 * b3 + 16777216 * b4) ≠ INT32_MIN
        ∧ (as_signed 32 (b1 + 256 * b2 + 65536 * b3 + 16777216 * b4) ≤ -32768
          ∨ 32768 ≤ as_signed 32 (b1 + 256 * b2 + 65536 * b3 + 16777216 * b4))) →
      ∃ v, vcf_dec_int1 [0x13, b1, b2, b3, b4] = Dec.ok v
        ∧ vcf_enc_int1 s v = Enc.done (s ++ [0x13, b1, b2, b3, b4])) := by
  refine ⟨?_, ?_, ?_⟩
  · intro p hp
    refine ⟨_, vcf_dec_int1_int8 p [], ?_⟩
    rw [vcf_enc_int1_int8 s (p : Int) (by omega) (by omega)]
    have e : ((p : Int) % 256).toNat = p := by omega
    rw [e]
  · intro lo hi hlo hhi hv
    obtain ⟨e1, e2, r1, r2⟩ := bytes_of_as_signed_16 lo hi hlo hhi
    refine ⟨_, vcf_dec_int1_int16 lo hi [], ?_⟩
    rw [vcf_enc_int1_int16 s _ (by omega) r2 (by omega), e1, e2]
  · intro b1 b2 b3 b4 h1 h2 h3 h4 hv
    obtain ⟨e1, e2, e3, e4⟩ := bytes_of_as_signed_32 b1 b2 b3 b4 h1 h2 h3 h4
    refine ⟨_, vcf_dec_int1_int32 b1 b2 b3 b4 [], ?_⟩
    rw [vcf_enc_int1_int32 s _ hv.1 (by omega), e1, e2, e3, e4]

/-- C14 (amended) at the INT16 encoding `[0x12, 0x80, 0xFF]` of `-128`. -/
theorem vcf_int1_reencode_canonical_witness :
    (0x80 < 256 ∧ 0xFF < 256
      ∧ ((-32767 ≤ as_signed 16 (0x80 + 256 * 0xFF) ∧ as_signed 16 (0x80 + 256 * 0xFF) ≤ -128)
        ∨ 128 ≤ as_signed 16 (0x80 + 256 * 0xFF)))
    ∧ ∃ v, vcf_dec_int1 [0x12, 0x80, 0xFF] = Dec.ok v
        ∧ vcf_enc_int1 [7] v = Enc.done ([7] ++ [0x12, 0x80, 0xFF]) :=
  ⟨by decide,
    (vcf_int1_reencode_canonical [7]).2.1 0x80 0xFF (by decide) (by decide) (by decide)⟩

/-! ## The fast path of `vcf_dec_size` -/

/-- On a first byte below `0x80` `vcf_dec_size` returns `16 * (b / 16) + 1`. -/
theorem vcf_dec_size_below_128 (tbl : Nat → Nat) (b : Nat) (rest : List Nat)
    (hb : b < 128) :
    vcf_dec_size tbl (b :: rest) = Dec.ok ((16 * (b / 16) + 1 : Nat) : Int)
    ∧ (b >>> 4) <<< 4 ||| 1 = 16 * (b / 16) + 1 := by
  interval_cases b <;> exact ⟨rfl, rfl⟩

/-- C15: for every buffer whose first byte `b` has its top bit clear,
`vcf_dec_size` returns `(b >> 4) << 4 | 1`, that is count `b >> 4` above the low
four bits and offset 1 in the low four bits; the result is the same for every
table, every type nibble of `b` and every tail of the buffer. -/
theorem vcf_dec_size_fast_path (tbl : Nat → Nat) (b : Nat) (rest : List Nat)
    (hb : b < 128) :
    vcf_dec_size tbl (b :: rest) = Dec.ok (((b >>> 4) <<< 4 ||| 1 : Nat) : Int)
    ∧ ((b >>> 4) <<< 4 ||| 1) / 16 = b >>> 4
    ∧ ((b >>> 4) <<< 4 ||| 1) % 16 = 1
    ∧ ∀ (tbl2 : Nat → Nat) (b2 : Nat) (rest2 : List Nat), b2 < 128 → b2 >>> 4 = b >>> 4 →
        vcf_dec_size tbl2 (b2 :: rest2) = vcf_dec_size tbl (b :: rest) := by
  obtain ⟨e1, e2⟩ := vcf_dec_size_below_128 tbl b rest hb
  refine ⟨by rw [e1, e2], by rw [e2, shr_4_eq_div]; omega, by rw [e2]; omega, ?_⟩
  intro tbl2 b2 rest2 hb2 hcount
  rw [shr_4_eq_div, shr_4_eq_div] at hcount
  rw [e1, (vcf_dec_size_below_128 tbl2 b2 rest2 hb2).1, hcount]

/-- C15 at the descriptor `0x73` (count 7, type INT32) followed by bytes that
the slow path would misread. -/
theorem vcf_dec_size_fast_path_witness :
    0x73 < 128
    ∧ vcf_dec_size vcf_type_size_spec [0x73, 0x11, 0x05]
        = Dec.ok (((0x73 >>> 4) <<< 4 ||| 1 : Nat) : Int)
    ∧ ((0x73 >>> 4) <<< 4 ||| 1 : Nat) = 0x71 :=
  ⟨by decide, (vcf_dec_size_fast_path vcf_type_size_spec 0x73 [0x11, 0x05] (by decide)).1,
    by decide⟩

/-! ## Unique decodability -/

/-- Two's-complement reading of the byte stored for an 8-bit value gives the
value back. -/
theorem as_signed_8_byte (x : Int) (h1 : -128 ≤ x) (h2 : x ≤ 127) :
    as_signed 8 (x % 256).toNat = x := by
  unfold as_signed
  have e1 : (((x % 256).toNat : Nat) : Int) = x % 256 := Int.toNat_of_nonneg (by omega)
  split
  · rename_i h
    have h3 : (x % 256).toNat < 128 := by simpa using h
    omega
  · rename_i h
    have h3 : ¬ (x % 256).toNat < 128 := by simpa using h
    push_cast
    omega

/-- There is a reader that recovers every 32-bit `x` from the bytes
`vcf_enc_int1` appends for it, whatever bytes follow them. -/
theorem vcf_enc_int1_prefix_decodable :
    ∃ g : List Nat → Int, ∀ x : Int, INT32_MIN ≤ x → x ≤ INT32_MAX →
      ∃ bx : List Nat, (∀ s, vcf_enc_int1 s x = Enc.done (s ++ bx))
        ∧ ∀ t, g (bx ++ t) = x := by
  refine ⟨fun b => match b with
    | 0x11 :: p :: _ => if p = 0x80 then INT32_MIN else as_signed 8 p
    | 0x12 :: lo :: hi :: _ => as_signed 16 (lo + 256 * hi)
    | 0x13 :: b1 :: b2 :: b3 :: b4 :: _ =>
      as_signed 32 (b1 + 256 * b2 + 65536 * b3 + 16777216 * b4)
    | _ => 0, ?_⟩
  intro x hmin hmax
  simp only [INT32_MIN, INT32_MAX] at hmin hmax
  by_cases hm : x = INT32_MIN
  · subst hm
    exact ⟨_, fun s => vcf_enc_int1_missing s, fun t => by simp⟩
  · have hm2 : x ≠ -2147483648 := hm
    by_cases h8 : -127 ≤ x ∧ x ≤ 127
    · refine ⟨_, fun s => vcf_enc_int1_int8 s x h8.1 h8.2, fun t => ?_⟩
      have hp : ¬ (x % 256).toNat = 128 := by omega
      simp only [List.cons_append, hp, if_false]
      exact as_signed_8_byte x (by omega) h8.2
    · by_cases h16 : -32767 ≤ x ∧ x ≤ 32767
      · refine ⟨_, fun s => vcf_enc_int1_int16 s x h16.1 h16.2 (by omega), fun t => ?_⟩
        simp only [List.cons_append]
        exact as_signed_16_bytes x (by omega) h16.2
      · refine ⟨_, fun s => vcf_enc_int1_int32 s x hm (by omega), fun t => ?_⟩
        simp only [List.cons_append]
        exact as_signed_32_bytes x (by omega) hmax

/-- C16: for all 32-bit signed integers `x ≠ y` (`INT32_MIN` included),
`vcf_enc_int1` returns normally on both, and the byte sequences it appends are
different and neither is a prefix of the other. -/
theorem vcf_enc_int1_prefix_free (x y : Int) (hx1 : INT32_MIN ≤ x) (hx2 : x ≤ INT32_MAX)
    (hy1 : INT32_MIN ≤ y) (hy2 : y ≤ INT32_MAX) (hne : x ≠ y) :
    ∃ bx ey : List Nat, (∀ s, vcf_enc_int1 s x = Enc.done (s ++ bx))
      ∧ (∀ s, vcf_enc_int1 s y = Enc.done (s ++ ey))
      ∧ bx ≠ ey ∧ ¬ bx <+: ey ∧ ¬ ey <+: bx := by
  obtain ⟨g, hg⟩ := vcf_enc_int1_prefix_decodable
  obtain ⟨bx, hbx, gx⟩ := hg x hx1 hx2
  obtain ⟨ey, hey, gy⟩ := hg y hy1 hy2
  have key : ∀ t, bx ++ t ≠ ey := by
    intro t h
    apply hne
    have h1 := gx t
    have h2 := gy []
    rw [List.append_nil] at h2
    rw [h, h2] at h1
    exact h1.symm
  have key2 : ∀ t, ey ++ t ≠ bx := by
    intro t h
    apply hne
    have h1 := gy t
    have h2 := gx []
    rw [List.append_nil] at h2
    rw [h, h2] at h1
    exact h1
  refine ⟨bx, ey, hbx, hey, ?_, ?_, ?_⟩
  · intro h
    exact key [] (by rw [List.append_nil]; exact h)
  · rintro ⟨t, ht⟩
    exact key t ht
  · rintro ⟨t, ht⟩
    exact key2 t ht

/-- C16 at `x = INT32_MIN` and `y = -128`, the two values that share the INT8
pattern `0x80`. -/
theorem vcf_enc_int1_prefix_free_witness :
    (INT32_MIN ≤ INT32_MIN ∧ INT32_MIN ≤ INT32_MAX ∧ INT32_MIN ≤ (-128 : Int)
      ∧ (-128 : Int) ≤ INT32_MAX ∧ INT32_MIN ≠ (-128 : Int))
    ∧ ∃ bx ey : List Nat, (∀ s, vcf_enc_int1 s INT32_MIN = Enc.done (s ++ bx))
      ∧ (∀ s, vcf_enc_int1 s (-128) = Enc.done (s ++ ey))
      ∧ bx ≠ ey ∧ ¬ bx <+: ey ∧ ¬ ey <+: bx :=
  ⟨by decide, vcf_enc_int1_prefix_free INT32_MIN (-128) (by decide) (by decide) (by decide)
    (by decide) (by decide)⟩

/-! ## Consistency of the encoder -/

/-- The bytes of `object_bytes w x` are the base-256 digits of `x`, least
significant first, for the three widths the encoder uses. -/
theorem object_bytes_digits (x : Int) :
    object_bytes 1 x = (List.range 1).map (fun i => (x / 256 ^ i % 256).toNat)
    ∧ object_bytes 2 x = (List.range 2).map (fun i => (x / 256 ^ i % 256).toNat)
    ∧ object_bytes 4 x = (List.range 4).map (fun i => (x / 256 ^ i % 256).toNat) := by
  have e2 : x / 256 / 256 = x / 65536 := by omega
  have e3 : x / 65536 / 256 = x / 16777216 := by omega
  refine ⟨?_, ?_, ?_⟩ <;>
    simp [object_bytes, List.range_succ, e2, e3]

/-- C17: for every `x` other than `INT32_MIN`, `vcf_enc_int1 s x` appends the
descriptor byte `(1 << 4) | vcf_enc_inttype(x)` followed by exactly `w` payload
bytes, `w` being 1, 2 or 4 for INT8, INT16 or INT32, and the payload being the
`w` low base-256 digits of `x` in two's complement, least significant first;
at `INT32_MIN` the two functions disagree: `vcf_enc_inttype` gives INT32 and
`vcf_enc_int1` writes an INT8 descriptor. -/
theorem vcf_enc_int1_self_consistent (s : kstring_t) (x : Int) :
    (x ≠ INT32_MIN →
      ∃ w : Nat,
        ((vcf_enc_inttype x = (VCF_RT_INT8 : Int) ∧ w = 1)
          ∨ (vcf_enc_inttype x = (VCF_RT_INT16 : Int) ∧ w = 2)
          ∨ (vcf_enc_inttype x = (VCF_RT_INT32 : Int) ∧ w = 4))
        ∧ w = vcf_type_size_spec (vcf_enc_inttype x).toNat
        ∧ vcf_enc_int1 s x
            = Enc.done (s ++ (Int.lor ((1 : Int) <<< (4 : Int)) (vcf_enc_inttype x) % 256).toNat
                :: (List.range w).map (fun i => (x / 256 ^ i % 256).toNat))
        ∧ ((List.range w).map (fun i => (x / 256 ^ i % 256).toNat)).length = w)
    ∧ (vcf_enc_inttype INT32_MIN = (VCF_RT_INT32 : Int)
      ∧ vcf_enc_int1 s INT32_MIN = Enc.done (s ++ [0x10 ||| VCF_RT_INT8, 0x80])) := by
  refine ⟨fun hx => ?_, by decide, vcf_enc_int1_missing s⟩
  obtain ⟨d1, d2, d4⟩ := object_bytes_digits x
  by_cases h8 : -127 ≤ x ∧ x ≤ 127
  · have h4 : x ≤ INT8_MAX ∧ x > INT8_MIN := by simp only [INT8_MAX, INT8_MIN]; omega
    have t : vcf_enc_inttype x = (VCF_RT_INT8 : Int) := by simp [vcf_enc_inttype, h4]
    refine ⟨1, Or.inl ⟨t, rfl⟩, by rw [t]; rfl, ?_, by simp⟩
    rw [t, ← d1, vcf_enc_int1_int8 s x h8.1 h8.2]
    rfl
  · have h5 : ¬ (x ≤ INT8_MAX ∧ x > INT8_MIN) := by simp only [INT8_MAX, INT8_MIN]; omega
    by_cases h16 : -32767 ≤ x ∧ x ≤ 32767
    · have h6 : x ≤ INT16_MAX ∧ x > INT16_MIN := by
        simp only [INT16_MAX, INT16_MIN]; omega
      have t : vcf_enc_inttype x = (VCF_RT_INT16 : Int) := by
        simp [vcf_enc_inttype, h5, h6]
      refine ⟨2, Or.inr (Or.inl ⟨t, rfl⟩), by rw [t]; rfl, ?_, by simp⟩
      rw [t, ← d2, vcf_enc_int1_int16 s x h16.1 h16.2 (by omega)]
      rfl
    · have h6 : ¬ (x ≤ INT16_MAX ∧ x > INT16_MIN) := by
        simp only [INT16_MAX, INT16_MIN]; omega
      have t : vcf_enc_inttype x = (VCF_RT_INT32 : Int) := by
        simp [vcf_enc_inttype, h5, h6]
      refine ⟨4, Or.inr (Or.inr ⟨t, rfl⟩), by rw [t]; rfl, ?_, by simp⟩
      rw [t, ← d4, vcf_enc_int1_int32 s x hx (by omega)]
      rfl

/-- C17 at `x = -129`: descriptor `0x12`, payload `[0x7F, 0xFF]`. -/
theorem vcf_enc_int1_self_consistent_witness :
    (-129 : Int) ≠ INT32_MIN
    ∧ vcf_enc_int1 [] (-129) = Enc.done [0x12, 0x7F, 0xFF]
    ∧ ∃ w : Nat,
        ((vcf_enc_inttype (-129) = (VCF_RT_INT8 : Int) ∧ w = 1)
          ∨ (vcf_enc_inttype (-129) = (VCF_RT_INT16 : Int) ∧ w = 2)
          ∨ (vcf_enc_inttype (-129) = (VCF_RT_INT32 : Int) ∧ w = 4))
        ∧ w = vcf_type_size_spec (vcf_enc_inttype (-129)).toNat
        ∧ vcf_enc_int1 [] (-129)
            = Enc.done ([] ++ (Int.lor ((1 : Int) <<< (4 : Int)) (vcf_enc_inttype (-129))
                  % 256).toNat
                :: (List.range w).map (fun i => ((-129 : Int) / 256 ^ i % 256).toNat))
        ∧ ((List.range w).map (fun i => ((-129 : Int) / 256 ^ i % 256).toNat)).length = w :=
  ⟨by decide, by decide, (vcf_enc_int1_self_consistent [] (-129)).1 (by decide)⟩

/-! ## Assertions on encoder output -/

/-- C18: for every `x` (`INT32_MIN` included) `vcf_enc_int1 s x` returns
normally, so the assertion of `vcf_enc_size` is not violated inside it, and the
first byte it appends has count nibble 1 and a type tag among INT8, INT16,
INT32; the condition asserted at the head of `vcf_dec_int1` holds on that byte
and `vcf_dec_int1` does not stop in its assertion on the appended bytes. -/
theorem vcf_enc_int1_descriptor_valid (s : kstring_t) (x : Int) :
    (∃ d payload, vcf_enc_int1 s x = Enc.done (s ++ d :: payload)
      ∧ d >>> 4 = 1
      ∧ ((d &&& 0xf) = VCF_RT_INT8 ∨ (d &&& 0xf) = VCF_RT_INT16 ∨ (d &&& 0xf) = VCF_RT_INT32)
      ∧ (d >>> 4 = 1 ∧ (d &&& 0xf) ≤ 4)
      ∧ vcf_dec_int1 (d :: payload) ≠ Dec.fail Fault.assertion)
    ∧ (∀ s1, vcf_enc_int1 s x ≠ Enc.aborted s1)
    ∧ (∀ t : Int, ∃ s1, vcf_enc_size s 1 t = Enc.done s1) := by
  have main : ∃ d payload, vcf_enc_int1 s x = Enc.done (s ++ d :: payload)
      ∧ d >>> 4 = 1
      ∧ ((d &&& 0xf) = VCF_RT_INT8 ∨ (d &&& 0xf) = VCF_RT_INT16
        ∨ (d &&& 0xf) = VCF_RT_INT32)
      ∧ (d >>> 4 = 1 ∧ (d &&& 0xf) ≤ 4)
      ∧ vcf_dec_int1 (d :: payload) ≠ Dec.fail Fault.assertion := by
    by_cases hm : x = INT32_MIN
    · subst hm
      refine ⟨0x11, _, vcf_enc_int1_missing s, by decide, by decide, by decide, ?_⟩
      rw [vcf_dec_int1_int8]
      exact fun h => Dec.noConfusion h
    · by_cases h8 : -127 ≤ x ∧ x ≤ 127
      · refine ⟨0x11, _, vcf_enc_int1_int8 s x h8.1 h8.2, by decide, by decide,
          by decide, ?_⟩
        rw [vcf_dec_int1_int8]
        exact fun h => Dec.noConfusion h
      · by_cases h16 : -32767 ≤ x ∧ x ≤ 32767
        · refine ⟨0x12, _, vcf_enc_int1_int16 s x h16.1 h16.2 (by omega), by decide,
            by decide, by decide, ?_⟩
          rw [vcf_dec_int1_int16]
          exact fun h => Dec.noConfusion h
        · refine ⟨0x13, _, vcf_enc_int1_int32 s x hm (by omega), by decide, by decide,
            by decide, ?_⟩
          rw [vcf_dec_int1_int32]
          exact fun h => Dec.noConfusion h
  refine ⟨main, ?_, ?_⟩
  · obtain ⟨d, payload, h, _⟩ := main
    intro s1 h1
    rw [h] at h1
    exact Enc.noConfusion h1
  · intro t
    have h1 : ¬ ((1 : Int) ≥ 15) := by decide
    refine ⟨kputc (Int.lor ((1 : Int) <<< (4 : Int)) t) s, ?_⟩
    simp only [vcf_enc_size, h1, if_false]

/-! ## Capacity rounding -/

/-- One or-shift step doubles the window of bits of `y` that each bit of the
accumulator collects. -/
theorem or_shift_window (y a m : Nat)
    (h : ∀ i, a.testBit i = true ↔ ∃ j, i ≤ j ∧ j < i + m ∧ y.testBit j = true) :
    ∀ i, (a ||| a >>> m).testBit i = true
      ↔ ∃ j, i ≤ j ∧ j < i + 2 * m ∧ y.testBit j = true := by
  intro i
  rw [Nat.testBit_or, Nat.testBit_shiftRight, Bool.or_eq_true, h, h]
  constructor
  · rintro (⟨j, h1, h2, h3⟩ | ⟨j, h1, h2, h3⟩)
    · exact ⟨j, h1, by omega, h3⟩
    · exact ⟨j, by omega, by omega, h3⟩
  · rintro ⟨j, h1, h2, h3⟩
    by_cases hj : j < i + m
    · exact Or.inl ⟨j, h1, hj, h3⟩
    · exact Or.inr ⟨j, by omega, by omega, h3⟩

/-- After the five or-shift steps of `kroundup32`, bit `i` is set exactly when
one of the bits `i .. i + 31` of the start value is. -/
theorem or_shift_five (y x1 x2 x3 x4 x5 : Nat) (e1 : x1 = y ||| y >>> 1)
    (e2 : x2 = x1 ||| x1 >>> 2) (e3 : x3 = x2 ||| x2 >>> 4) (e4 : x4 = x3 ||| x3 >>> 8)
    (e5 : x5 = x4 ||| x4 >>> 16) :
    ∀ i, x5.testBit i = true ↔ ∃ j, i ≤ j ∧ j < i + 32 ∧ y.testBit j = true := by
  have h0 : ∀ i, y.testBit i = true ↔ ∃ j, i ≤ j ∧ j < i + 1 ∧ y.testBit j = true := by
    intro i
    constructor
    · intro h
      exact ⟨i, Nat.le_refl i, by omega, h⟩
    · rintro ⟨j, h1, h2, h3⟩
      have e : j = i := by omega
      rw [← e]
      exact h3
  subst e1 e2 e3 e4 e5
  have h1 := or_shift_window y _ 1 h0
  have h2 := or_shift_window y _ 2 h1
  have h3 := or_shift_window y _ 4 h2
  have h4 := or_shift_window y _ 8 h3
  exact or_shift_window y _ 16 h4

/-- The five or-shift steps turn a value with highest set bit `k ≤ 31` into
`2^(k+1) - 1`. -/
theorem or_shift_fills (y k x1 x2 x3 x4 x5 : Nat) (hk : k ≤ 31) (hlo : 2 ^ k ≤ y)
    (hhi : y < 2 ^ (k + 1)) (e1 : x1 = y ||| y >>> 1)
    (e2 : x2 = x1 ||| x1 >>> 2) (e3 : x3 = x2 ||| x2 >>> 4) (e4 : x4 = x3 ||| x3 >>> 8)
    (e5 : x5 = x4 ||| x4 >>> 16) :
    x5 = 2 ^ (k + 1) - 1 := by
  have win := or_shift_five y x1 x2 x3 x4 x5 e1 e2 e3 e4 e5
  have hpos : 0 < 2 ^ k := Nat.pow_pos (by decide)
  have hsucc : 2 ^ (k + 1) = 2 * 2 ^ k := by rw [Nat.pow_succ]; omega
  have top : y.testBit k = true := by
    rw [Nat.testBit_to_div_mod]
    have hd : y / 2 ^ k = 1 := Nat.div_eq_of_lt_le (by omega) (by omega)
    rw [hd]
    decide
  have above : ∀ j, k < j → y.testBit j = false := by
    intro j hj
    apply Nat.testBit_lt_two_pow
    calc y < 2 ^ (k + 1) := hhi
      _ ≤ 2 ^ j := Nat.pow_le_pow_right (by decide) hj
  apply Nat.eq_of_testBit_eq
  intro i
  rw [Nat.testBit_two_pow_sub_one]
  by_cases hi : i < k + 1
  · have h1 : x5.testBit i = true := (win i).2 ⟨k, by omega, by omega, top⟩
    rw [h1]
    simp [hi]
  · have h1 : ¬ x5.testBit i = true := by
      intro h
      obtain ⟨j, hj1, _, hj3⟩ := (win i).1 h
      rw [above j (by omega)] at hj3
      exact Bool.noConfusion hj3
    simp only [Bool.not_eq_true] at h1
    rw [h1]
    simp [hi]

/-- The value `kroundup32` returns for `x` in `2 .. 2^32 - 1`, in terms of the
position `k` of the highest set bit of `x - 1`. -/
theorem kroundup32_of_top_bit (x k : Nat) (hx : 2 ≤ x) (hx2 : x < 2 ^ 32)
    (hlo : 2 ^ k ≤ x - 1) (hhi : x - 1 < 2 ^ (k + 1)) :
    k ≤ 31 ∧ kroundup32 x = 2 ^ (k + 1) % 2 ^ 32 := by
  have hk : k ≤ 31 := by
    by_contra hcon
    have h32 : 2 ^ 32 ≤ 2 ^ k := Nat.pow_le_pow_right (by decide) (by omega)
    omega
  refine ⟨hk, ?_⟩
  have hy : (x + 2 ^ 32 - 1) % 2 ^ 32 = x - 1 := by omega
  have hpos : 0 < 2 ^ (k + 1) := Nat.pow_pos (by decide)
  have fill := or_shift_fills ((x + 2 ^ 32 - 1) % 2 ^ 32) k _ _ _ _ _ hk
    (by rw [hy]; exact hlo) (by rw [hy]; exact hhi) rfl rfl rfl rfl rfl
  have e : 2 ^ (k + 1) - 1 + 1 = 2 ^ (k + 1) := by omega
  rw [← e, ← fill]
  rfl

/-- C19: for every unsigned 32-bit `x` with `1 ≤ x ≤ 2^31`, `kroundup32 x` is a
power of two `r` with `x ≤ r < 2 * x`, the smallest power of two that is at
least `x`; powers of two up to `2^31` are fixed points; and for `x = 0` and for
`2^31 < x < 2^32` the result is `0`. -/
theorem kroundup32_rounds_up (x : Nat) :
    (1 ≤ x → x ≤ 2 ^ 31 →
      ∃ k, kroundup32 x = 2 ^ k ∧ x ≤ 2 ^ k ∧ 2 ^ k < 2 * x
        ∧ ∀ j, x ≤ 2 ^ j → 2 ^ k ≤ 2 ^ j)
    ∧ (∀ j, j ≤ 31 → kroundup32 (2 ^ j) = 2 ^ j)
    ∧ kroundup32 0 = 0
    ∧ (2 ^ 31 < x → x < 2 ^ 32 → kroundup32 x = 0) := by
  refine ⟨?_, ?_, by decide, ?_⟩
  · intro h1 h2
    by_cases hone : x = 1
    · subst hone
      refine ⟨0, by decide, by decide, by decide, ?_⟩
      intro j _
      exact Nat.pow_pos (by decide)
    · have hne : x - 1 ≠ 0 := by omega
      have hlo := Nat.log2_self_le hne
      have hhi := @Nat.lt_log2_self (x - 1)
      obtain ⟨_, e⟩ := kroundup32_of_top_bit x (x - 1).log2 (by omega) (by omega) hlo hhi
      have hsucc : 2 ^ ((x - 1).log2 + 1) = 2 * 2 ^ (x - 1).log2 := by
        rw [Nat.pow_succ]; omega
      have hsmall : 2 ^ ((x - 1).log2 + 1) < 2 ^ 32 := by omega
      rw [Nat.mod_eq_of_lt hsmall] at e
      refine ⟨(x - 1).log2 + 1, e, by omega, by omega, ?_⟩
      intro j hj
      by_contra hcon
      have hlt : j < (x - 1).log2 + 1 := by
        by_contra hge
        exact hcon (Nat.pow_le_pow_right (by decide) (by omega))
      have hle : 2 ^ j ≤ 2 ^ (x - 1).log2 := Nat.pow_le_pow_right (by decide) (by omega)
      omega
  · intro j hj
    interval_cases j <;> decide
  · intro h1 h2
    have hne : x - 1 ≠ 0 := by omega
    have hlo := Nat.log2_self_le hne
    have hhi := @Nat.lt_log2_self (x - 1)
    obtain ⟨hk, e⟩ := kroundup32_of_top_bit x (x - 1).log2 (by omega) h2 hlo hhi
    have hk31 : (x - 1).log2 = 31 := by
      by_contra hcon
      have h30 : 2 ^ ((x - 1).log2 + 1) ≤ 2 ^ 31 :=
        Nat.pow_le_pow_right (by decide) (by omega)
      omega
    rw [hk31] at e
    rw [e]
    decide

/-- C19 at `x = 1025`, which rounds up to `2048`, and at `x = 2^31 + 1`, which
wraps to `0`. -/
theorem kroundup32_rounds_up_witness :
    (1 ≤ 1025 ∧ 1025 ≤ 2 ^ 31 ∧ 2 ^ 31 < 2 ^ 31 + 1 ∧ 2 ^ 31 + 1 < 2 ^ 32)
    ∧ (∃ k, kroundup32 1025 = 2 ^ k ∧ 1025 ≤ 2 ^ k ∧ 2 ^ k < 2 * 1025
        ∧ ∀ j, 1025 ≤ 2 ^ j → 2 ^ k ≤ 2 ^ j)
    ∧ kroundup32 (2 ^ 31 + 1) = 0 :=
  ⟨by decide, (kroundup32_rounds_up 1025).1 (by decide) (by decide),
    (kroundup32_rounds_up (2 ^ 31 + 1)).2.2.2 (by decide) (by decide)⟩

end Vcf
